import Mathlib

/-!
Verification of the proxy-list aggregation core: quality scoring
(`compute_quality_score`), merge/deduplication (`_merge_and_deduplicate`),
fetch orchestration (`fetch_all_sources`), the in-memory cache
(`ProxyCache`) and the refresh cycle (`refresh_cache`), and the
connectivity spot-checker (`spot_check_proxies`).

Floats are modelled as rationals; Python `round(x, 3)` is modelled by
`round3` (ties at the fourth decimal are immaterial to every property
proved here).  Optional fields are `Option`; fallible code returns
`Option`.  External effects (network fetches, the random sampler, the
probe outcomes, the clock) enter as explicit parameters.
-/

/-- Mirror of `app.models.Proxy` (pydantic model): one proxy record. -/
structure Proxy where
  ip : String
  port : Nat
  protocol : String
  anonymity : Option String := none
  country : Option String := none
  city : Option String := none
  proxy_url : String
  speed_ms : Option ℚ := none
  reliability : Option ℚ := none
  source_count : Nat := 1
  quality_score : ℚ := 0
  verified_targets : Option (List String) := none
deriving DecidableEq

/-- Rounding to three decimals, modelling Python `round(x, 3)`. -/
def round3 (x : ℚ) : ℚ := (round (x * 1000) : ℚ) / 1000

/-- The `anon_scores` lookup table of `compute_quality_score`
(`dict.get` with default `0.0`). -/
def anonScores (a : String) : ℚ :=
  if a = "elite" then 1/10
  else if a = "anonymous" then 6/100
  else if a = "transparent" then 2/100
  else 0

/-- Mirror of `app.verification.compute_quality_score`: each `score +=`
line of the source becomes one added contribution (a skipped `if` body
contributes `0`). -/
def compute_quality_score (proxy : Proxy) : ℚ :=
  let score : ℚ := 0
  -- score += min(proxy.source_count * 0.1, 0.3)
  let score := score + min ((proxy.source_count : ℚ) * (1/10)) (3/10)
  -- if proxy.reliability is not None: score += proxy.reliability * 0.3
  let score := score + (match proxy.reliability with
    | some r => r * (3/10)
    | none => 0)
  -- if proxy.speed_ms is not None and proxy.speed_ms > 0:
  --   score += max(0, 0.2 - (proxy.speed_ms / 25000))
  let score := score + (match proxy.speed_ms with
    | some s => if 0 < s then max 0 (2/10 - s / 25000) else 0
    | none => 0)
  -- score += anon_scores.get(proxy.anonymity or "", 0.0)
  let score := score + anonScores (proxy.anonymity.getD "")
  -- if proxy.verified_targets: score += min(len(...) * 0.02, 0.1)
  let score := score + (match proxy.verified_targets with
    | some ts => if ts ≠ [] then min ((ts.length : ℚ) * (2/100)) (1/10) else 0
    | none => 0)
  round3 (min score 1)

/-- Number of verified targets of a record, `0` when the list is absent. -/
def vtCount (proxy : Proxy) : Nat :=
  match proxy.verified_targets with
  | some ts => ts.length
  | none => 0

/-- The five score contributions as the specification lists them, summed. -/
def scoreSum (p : Proxy) : ℚ :=
  min ((p.source_count : ℚ) * (1/10)) (3/10)
  + (match p.reliability with | some r => r * (3/10) | none => 0)
  + (match p.speed_ms with
      | some s => if 0 < s then max 0 (2/10 - s / 25000) else 0
      | none => 0)
  + anonScores (p.anonymity.getD "")
  + min ((vtCount p : ℚ) * (2/100)) (1/10)

lemma anonScores_nonneg (a : String) : 0 ≤ anonScores a := by
  unfold anonScores
  split <;> norm_num
  split <;> norm_num
  split <;> norm_num

lemma round3_nonneg_of (x : ℚ) (h0 : 0 ≤ x) : 0 ≤ round3 x := by
  unfold round3
  have h : (0 : ℤ) ≤ round (x * 1000) := by
    have h2 : round (0 : ℚ) ≤ round (x * 1000) := by
      rw [round_eq, round_eq]
      exact Int.floor_le_floor (by linarith)
    simpa using h2
  have h3 : (0 : ℚ) ≤ (round (x * 1000) : ℚ) := by exact_mod_cast h
  positivity

lemma round3_le_one_of (x : ℚ) (h1 : x ≤ 1) : round3 x ≤ 1 := by
  unfold round3
  have h : round (x * 1000) ≤ (1000 : ℤ) := by
    have h2 : round (x * 1000) ≤ round ((1000 : ℤ) : ℚ) := by
      rw [round_eq, round_eq]
      exact Int.floor_le_floor (by push_cast; linarith)
    simpa using h2
  rw [div_le_one (by norm_num)]
  exact_mod_cast h

lemma scoreSum_nonneg (p : Proxy)
    (hr : ∀ r, p.reliability = some r → 0 ≤ r ∧ r ≤ 1) :
    0 ≤ scoreSum p := by
  unfold scoreSum
  have h1 : 0 ≤ min ((p.source_count : ℚ) * (1/10)) (3/10) := by
    apply le_min <;> positivity
  have h2 : 0 ≤ (match p.reliability with | some r => r * (3/10) | none => 0) := by
    cases hR : p.reliability with
    | none => simp
    | some r =>
      have := (hr r hR).1
      simp only []
      positivity
  have h3 : 0 ≤ (match p.speed_ms with
      | some s => if 0 < s then max 0 (2/10 - s / 25000) else 0
      | none => 0) := by
    cases p.speed_ms with
    | none => simp
    | some s => simp only []; split <;> simp [le_max_left]
  have h4 : 0 ≤ anonScores (p.anonymity.getD "") := anonScores_nonneg _
  have h5 : 0 ≤ min ((vtCount p : ℚ) * (2/100)) (1/10) := by
    apply le_min <;> positivity
  linarith

lemma compute_quality_score_eq (p : Proxy) :
    compute_quality_score p = round3 (min (scoreSum p) 1) := by
  unfold compute_quality_score scoreSum vtCount
  cases p.verified_targets with
  | none => simp
  | some ts =>
    by_cases h : ts = []
    · subst h; simp
    · simp [h]

/-- C1: on a canonical record whose reliability (when present) lies in
`[0,1]`, `compute_quality_score` returns exactly `round3` of
`min` of the five-contribution sum and `1`, and that value lies in `[0,1]`. -/
theorem C1_compute_quality_score (p : Proxy)
    (hr : ∀ r, p.reliability = some r → 0 ≤ r ∧ r ≤ 1) :
    compute_quality_score p = round3 (min (scoreSum p) 1)
    ∧ 0 ≤ compute_quality_score p ∧ compute_quality_score p ≤ 1 := by
  have heq := compute_quality_score_eq p
  refine ⟨heq, ?_, ?_⟩
  · rw [heq]
    exact round3_nonneg_of _ (le_min (scoreSum_nonneg p hr) (by norm_num))
  · rw [heq]
    exact round3_le_one_of _ (min_le_right _ _)

/-- A sample canonical record used to instantiate hypotheses concretely. -/
def wProxy : Proxy :=
  { ip := "203.0.113.7", port := 8080, protocol := "http",
    anonymity := some "elite", country := some "US",
    proxy_url := "http://203.0.113.7:8080",
    speed_ms := some 120, reliability := some (9/10),
    source_count := 2, quality_score := 0,
    verified_targets := some ["t1"] }

theorem C1_compute_quality_score_witness :
    compute_quality_score wProxy = round3 (min (scoreSum wProxy) 1)
    ∧ 0 ≤ compute_quality_score wProxy ∧ compute_quality_score wProxy ≤ 1 :=
  C1_compute_quality_score wProxy (by
    intro r hs
    simp only [wProxy] at hs
    obtain rfl : (9/10 : ℚ) = r := by injection hs
    norm_num)

/-! ### Merge engine (`app.sources`) -/

/-- The grouping key `(p.ip, p.port)` used by `_merge_and_deduplicate`. -/
def ipPort (p : Proxy) : String × Nat := (p.ip, p.port)

/-- Keys of the `defaultdict` grouping, in first-occurrence order (the
iteration order of a Python dict). -/
def keysInOrder : List Proxy → List (String × Nat)
  | [] => []
  | p :: ps => ipPort p :: (keysInOrder ps).filter (fun k => decide (k ≠ ipPort p))

/-- The group of records sharing key `k`, in input order (the contents of
`groups[k]` after the grouping loop). -/
def groupOf (l : List Proxy) (k : String × Nat) : List Proxy :=
  l.filter (fun p => decide (ipPort p = k))

/-- Mirror of `app.sources._anon_rank`. -/
def _anon_rank (anonymity : Option String) : Nat :=
  let a := anonymity.getD ""
  if a = "elite" then 3
  else if a = "anonymous" then 2
  else if a = "transparent" then 1
  else 0

/-- One iteration of the `best_speed` accumulation in the merge loop. -/
def speedStep (bs : Option ℚ) (p : Proxy) : Option ℚ :=
  match p.speed_ms, bs with
  | some s, none => some s
  | some s, some b => if s < b then some s else some b
  | none, b => b

/-- One iteration of the `best_reliability` accumulation in the merge loop. -/
def relStep (br : Option ℚ) (p : Proxy) : Option ℚ :=
  match p.reliability, br with
  | some r, none => some r
  | some r, some b => if r > b then some r else some b
  | none, b => b

/-- One iteration of the `best_anonymity` accumulation in the merge loop
(`if p.anonymity and (best is None or _anon_rank(p.anonymity) > _anon_rank(best))`). -/
def anonStep (ba : Option String) (p : Proxy) : Option String :=
  match p.anonymity with
  | some a =>
    if a ≠ "" ∧ (ba = none ∨ _anon_rank (some a) > _anon_rank ba)
    then some a else ba
  | none => ba

/-- The body of the per-group merge loop of `_merge_and_deduplicate`:
`base = group[0]`, fold the three accumulators over the whole group,
build the canonical record, then set its quality score.  The `[]` case
never arises (groups are nonempty by construction). -/
def mergeGroup : List Proxy → Proxy
  | [] => { ip := "", port := 0, protocol := "", proxy_url := "" }
  | base :: rest =>
    let group := base :: rest
    let best_speed := group.foldl speedStep none
    let best_reliability := group.foldl relStep none
    let best_anonymity := group.foldl anonStep base.anonymity
    let p0 : Proxy :=
      { ip := base.ip, port := base.port, protocol := base.protocol,
        anonymity := best_anonymity, country := base.country,
        proxy_url := base.proxy_url, speed_ms := best_speed,
        reliability := best_reliability, source_count := group.length }
    { p0 with quality_score := compute_quality_score p0 }

/-- The merged list before the final sort, in key first-occurrence order. -/
def mergedUnsorted (l : List Proxy) : List Proxy :=
  (keysInOrder l).map (fun k => mergeGroup (groupOf l k))

/-- The comparison of `merged.sort(key=lambda p: p.quality_score, reverse=True)`:
descending by quality score, stable. -/
def scoreLE (a b : Proxy) : Bool := decide (b.quality_score ≤ a.quality_score)

/-- Mirror of `app.sources._merge_and_deduplicate`: group by `(ip, port)`,
merge each group, stable-sort by quality score descending. -/
def _merge_and_deduplicate (all_proxies : List Proxy) : List Proxy :=
  (mergedUnsorted all_proxies).mergeSort scoreLE

/-! ### Fetch orchestrator (`app.sources.fetch_all_sources`) -/

/-- Outcome of awaiting one source adapter: a parsed record list, or an
exception of the given kind caught at the adapter boundary. -/
inductive FetchOutcome where
  | ok (records : List Proxy)
  | err (kind : String)
deriving DecidableEq

/-- One iteration of the orchestration loop: extend the combined list and
record the per-source status. -/
def outcomeStep (acc : List Proxy × List (String × String))
    (x : String × FetchOutcome) : List Proxy × List (String × String) :=
  match x.2 with
  | .ok rs => (acc.1 ++ rs, acc.2 ++ [(x.1, "ok")])
  | .err k => (acc.1, acc.2 ++ [(x.1, "error: " ++ k)])

/-- Mirror of `app.sources.fetch_all_sources`, with the three adapter
awaits replaced by their outcomes: loop over the fetchers in insertion
order, then merge/deduplicate the combined list. -/
def fetch_all_sources (proxifly vakhov clearproxy : FetchOutcome) :
    List Proxy × List (String × String) :=
  let r := [("proxifly", proxifly), ("vakhov", vakhov),
            ("clearproxy", clearproxy)].foldl outcomeStep ([], [])
  (_merge_and_deduplicate r.1, r.2)

/-- Record list contributed by one adapter (empty on failure). -/
def recordsOf : FetchOutcome → List Proxy
  | .ok rs => rs
  | .err _ => []

/-- Status string recorded for one adapter. -/
def statusOf : FetchOutcome → String
  | .ok _ => "ok"
  | .err k => "error: " ++ k

/-! ### Cache (`app.cache.ProxyCache`) and refresh (`app.main.refresh_cache`) -/

/-- Mirror of `app.cache.ProxyCache`; the status dict is an association
list in insertion order, time instants are rationals. -/
structure ProxyCache where
  proxies : List Proxy := []
  cached_at : ℚ := 0
  source_status : List (String × String) := []
  spot_check_success_rate : Option ℚ := none
deriving DecidableEq

/-- Mirror of `ProxyCache.update`; `now` stands for `time.time()`. -/
def ProxyCache.update (c : ProxyCache) (proxies : List Proxy)
    (source_status : List (String × String)) (now : ℚ) : ProxyCache :=
  { c with proxies := proxies, cached_at := now, source_status := source_status }

/-- Mirror of `ProxyCache.is_empty`. -/
def ProxyCache.is_empty (c : ProxyCache) : Bool := decide (c.proxies.length = 0)

/-- Mirror of `ProxyCache.is_stale`; `now` stands for `time.time()`. -/
def ProxyCache.is_stale (c : ProxyCache) (ttl now : ℚ) : Bool :=
  decide (c.cached_at = 0) || decide (now - c.cached_at > ttl)

/-- Mirror of `app.main.refresh_cache` on its non-raising path, with the
awaited fetch result `(fetched, status)`, the clock value `now` and the
spot-check ratio `rate` passed in: if the fetch yielded records or the
cache is empty, replace the cache and store the ratio; otherwise keep the
stale data and refresh only the status map. -/
def refresh_cache (cache : ProxyCache) (fetched : List Proxy)
    (status : List (String × String)) (now rate : ℚ) : ProxyCache :=
  if fetched.length ≠ 0 ∨ cache.is_empty then
    let c1 := cache.update fetched status now
    { c1 with spot_check_success_rate := some rate }
  else
    { cache with source_status := status }

/-! ### Spot checker (`app.verification.spot_check_proxies`) -/

/-- Mirror of `app.verification.spot_check_proxies`.  The random draw is
externalized: `sample` stands for the value of
`random.sample(proxies, min(sample_size, len(proxies)))` (its length
contract enters theorems as a hypothesis), and `probe p` for whether the
gathered result of `_test_single_proxy p` is `True` (exceptions count as
failures).  `none` models the two raising branches: a negative sample
request (`random.sample` raises `ValueError`) and a zero divisor
(`ZeroDivisionError`). -/
def spot_check_proxies (proxies : List Proxy) (sample_size : ℤ)
    (sample : List Proxy) (probe : Proxy → Bool) : Option ℚ :=
  if proxies.length = 0 then some 0
  else
    let k : ℤ := min sample_size (proxies.length : ℤ)
    if k < 0 then none
    else if sample.length = 0 then none
    else some ((sample.countP probe : ℚ) / (sample.length : ℚ))

/-! ### Cache and refresh-cycle theorems -/

/-- C7: `update` replaces the record list, the status map and the capture
timestamp (to the current time), and leaves the spot-check ratio at its
value before the call. -/
theorem C7_cache_update (c : ProxyCache) (r : List Proxy)
    (s : List (String × String)) (now : ℚ) :
    (c.update r s now).proxies = r
    ∧ (c.update r s now).source_status = s
    ∧ (c.update r s now).cached_at = now
    ∧ (c.update r s now).spot_check_success_rate = c.spot_check_success_rate :=
  ⟨rfl, rfl, rfl, rfl⟩

/-- C3: a refresh cycle whose fetch yields zero merged records, against a
cache already holding records, leaves the record list, the capture
timestamp and the spot-check ratio unchanged and replaces only the
source-status map. -/
theorem C3_keep_stale_cache (c : ProxyCache) (o1 o2 o3 : FetchOutcome)
    (ps : List Proxy) (st : List (String × String)) (now rate : ℚ)
    (hfetch : fetch_all_sources o1 o2 o3 = (ps, st))
    (hzero : ps = []) (hnonempty : c.proxies ≠ []) :
    (refresh_cache c ps st now rate).proxies = c.proxies
    ∧ (refresh_cache c ps st now rate).cached_at = c.cached_at
    ∧ (refresh_cache c ps st now rate).spot_check_success_rate
        = c.spot_check_success_rate
    ∧ (refresh_cache c ps st now rate).source_status = st := by
  subst hzero
  have hcond : ¬ (([] : List Proxy).length ≠ 0 ∨ c.is_empty = true) := by
    simp [ProxyCache.is_empty, hnonempty]
  rw [refresh_cache, if_neg hcond]
  exact ⟨rfl, rfl, rfl, rfl⟩

/-- The status map produced by a cycle in which every adapter failed. -/
def wStatus : List (String × String) :=
  [("proxifly", "error: Timeout"), ("vakhov", "error: Timeout"),
   ("clearproxy", "error: Timeout")]

lemma fetch_all_err :
    fetch_all_sources (.err "Timeout") (.err "Timeout") (.err "Timeout")
      = ([], wStatus) := by
  simp [fetch_all_sources, outcomeStep, _merge_and_deduplicate, mergedUnsorted,
        keysInOrder, wStatus]

/-- A populated cache used to instantiate hypotheses concretely. -/
def wCache : ProxyCache :=
  { proxies := [wProxy], cached_at := 100,
    source_status := [("proxifly", "ok"), ("vakhov", "ok"), ("clearproxy", "ok")],
    spot_check_success_rate := some 1 }

theorem C3_keep_stale_cache_witness :
    (refresh_cache wCache [] wStatus 200 0).proxies = wCache.proxies
    ∧ (refresh_cache wCache [] wStatus 200 0).cached_at = wCache.cached_at
    ∧ (refresh_cache wCache [] wStatus 200 0).spot_check_success_rate
        = wCache.spot_check_success_rate
    ∧ (refresh_cache wCache [] wStatus 200 0).source_status = wStatus :=
  C3_keep_stale_cache wCache (.err "Timeout") (.err "Timeout") (.err "Timeout")
    [] wStatus 200 0 fetch_all_err rfl (by simp [wCache])

/-! ### Spot-checker theorems -/

/-- C5: the spot check returns `0` on an empty record set; on a nonempty
set with sample size at least one and a sample of the contracted length
`min N (set size)`, it returns the number of successful probes divided by
`min N (set size)`, a value in `[0, 1]`. -/
theorem C5_spot_check_ratio (proxies : List Proxy) (N : ℤ)
    (sample : List Proxy) (probe : Proxy → Bool) :
    (proxies = [] → spot_check_proxies proxies N sample probe = some 0)
    ∧ (proxies ≠ [] → 1 ≤ N →
        (sample.length : ℤ) = min N (proxies.length : ℤ) →
        spot_check_proxies proxies N sample probe
          = some ((sample.countP probe : ℚ) / ((min N (proxies.length : ℤ) : ℤ) : ℚ))
        ∧ (0:ℚ) ≤ (sample.countP probe : ℚ) / ((min N (proxies.length : ℤ) : ℤ) : ℚ)
        ∧ (sample.countP probe : ℚ) / ((min N (proxies.length : ℤ) : ℤ) : ℚ) ≤ 1) := by
  constructor
  · intro h; subst h; simp [spot_check_proxies]
  · intro hne hN hlen
    have hlp : 0 < proxies.length := List.length_pos.mpr hne
    have hk : (1:ℤ) ≤ min N (proxies.length : ℤ) := le_min hN (by exact_mod_cast hlp)
    have hs1 : (1:ℤ) ≤ (sample.length : ℤ) := hlen ▸ hk
    have hs : ¬ sample.length = 0 := by
      intro h0; rw [h0] at hs1; norm_num at hs1
    have h0 : ¬ proxies.length = 0 := by omega
    have hknn : ¬ (min N (proxies.length : ℤ) < 0) := by omega
    have hdiv : (0:ℚ) < ((min N (proxies.length : ℤ) : ℤ) : ℚ) := by
      exact_mod_cast lt_of_lt_of_le one_pos hk
    have hcount : (sample.countP probe : ℚ) ≤ ((min N (proxies.length : ℤ) : ℤ) : ℚ) := by
      have hc : sample.countP probe ≤ sample.length := List.countP_le_length _
      have : ((sample.countP probe : ℤ) : ℚ) ≤ ((sample.length : ℤ) : ℚ) := by
        exact_mod_cast hc
      rw [hlen] at this
      exact_mod_cast this
    refine ⟨?_, ?_, ?_⟩
    · simp only [spot_check_proxies, if_neg h0, if_neg hknn, if_neg hs]
      congr 1
      have : ((sample.length : ℤ) : ℚ) = ((min N (proxies.length : ℤ) : ℤ) : ℚ) := by
        exact_mod_cast hlen
      push_cast at this ⊢
      rw [this]
    · positivity
    · rw [div_le_one hdiv]
      exact hcount

/-- A second sample record with a distinct address. -/
def wProxy2 : Proxy :=
  { ip := "203.0.113.8", port := 80, protocol := "http",
    proxy_url := "http://203.0.113.8:80" }

theorem C5_spot_check_ratio_witness :
    spot_check_proxies [wProxy, wProxy2] 5 [wProxy2, wProxy]
        (fun p => decide (p.port = 80))
      = some ((([wProxy2, wProxy].countP (fun p => decide (p.port = 80))) : ℚ)
          / ((min 5 (([wProxy, wProxy2] : List Proxy).length : ℤ) : ℤ) : ℚ)) :=
  ((C5_spot_check_ratio [wProxy, wProxy2] 5 [wProxy2, wProxy]
      (fun p => decide (p.port = 80))).2
    (by simp) (by norm_num) (by simp)).1

/-- C10: on a nonempty record set with sample size at least `1`, the drawn
sample is nonempty, so the final division has a nonzero divisor and the
function returns a value rather than raising; the `N ≥ 1` precondition is
necessary: with a nonempty set and `N = 0` (and the sampler contract
forcing an empty sample) the divisor is zero and the division raises. -/
theorem C10_spot_check_divisor (proxies : List Proxy) (N : ℤ)
    (sample : List Proxy) (probe : Proxy → Bool) :
    (proxies ≠ [] → 1 ≤ N →
      (sample.length : ℤ) = min N (proxies.length : ℤ) →
      sample.length ≠ 0 ∧ (spot_check_proxies proxies N sample probe).isSome)
    ∧ spot_check_proxies [wProxy] 0 ([] : List Proxy) probe = none := by
  constructor
  · intro hne hN hlen
    have hlp : 0 < proxies.length := List.length_pos.mpr hne
    have hk : (1:ℤ) ≤ min N (proxies.length : ℤ) := le_min hN (by exact_mod_cast hlp)
    have hs1 : (1:ℤ) ≤ (sample.length : ℤ) := hlen ▸ hk
    have hs : ¬ sample.length = 0 := by
      intro h0; rw [h0] at hs1; norm_num at hs1
    have h0 : ¬ proxies.length = 0 := by omega
    have hknn : ¬ (min N (proxies.length : ℤ) < 0) := by omega
    refine ⟨hs, ?_⟩
    simp only [spot_check_proxies, if_neg h0, if_neg hknn, if_neg hs, Option.isSome_some]
  · simp [spot_check_proxies]

theorem C10_spot_check_divisor_witness :
    ([wProxy] : List Proxy).length ≠ 0
    ∧ (spot_check_proxies [wProxy] 5 [wProxy] (fun _ => true)).isSome :=
  (C10_spot_check_divisor [wProxy] 5 [wProxy] (fun _ => true)).1
    (by simp) (by norm_num) (by simp)

/-! ### Merge-engine lemmas -/

lemma mem_keysInOrder (l : List Proxy) (k : String × Nat) :
    k ∈ keysInOrder l ↔ k ∈ l.map ipPort := by
  induction l with
  | nil => simp [keysInOrder]
  | cons p ps ih =>
    by_cases hk : k = ipPort p
    · subst hk; simp [keysInOrder]
    · simp [keysInOrder, List.mem_filter, ih, hk]

lemma keysInOrder_nodup (l : List Proxy) : (keysInOrder l).Nodup := by
  induction l with
  | nil => simp [keysInOrder]
  | cons p ps ih =>
    simp only [keysInOrder, List.nodup_cons]
    refine ⟨?_, ih.filter _⟩
    simp [List.mem_filter]

lemma mem_groupOf {l : List Proxy} {k : String × Nat} {p : Proxy} :
    p ∈ groupOf l k ↔ p ∈ l ∧ ipPort p = k := by
  simp [groupOf, List.mem_filter]

lemma groupOf_ne_nil {l : List Proxy} {k : String × Nat}
    (h : k ∈ l.map ipPort) : groupOf l k ≠ [] := by
  obtain ⟨p, hp, rfl⟩ := List.mem_map.mp h
  intro hnil
  have hmem : p ∈ groupOf l (ipPort p) := mem_groupOf.mpr ⟨hp, rfl⟩
  simp [hnil] at hmem

lemma ipPort_mergeGroup {g : List Proxy} {k : String × Nat} (hne : g ≠ [])
    (hk : ∀ p ∈ g, ipPort p = k) : ipPort (mergeGroup g) = k := by
  obtain ⟨base, rest, rfl⟩ := List.exists_cons_of_ne_nil hne
  have hb := hk base (by simp)
  simpa [mergeGroup, ipPort] using hb

lemma map_ipPort_mergedUnsorted (l : List Proxy) :
    (mergedUnsorted l).map ipPort = keysInOrder l := by
  have hcong : ∀ k ∈ keysInOrder l, ipPort (mergeGroup (groupOf l k)) = k := by
    intro k hk
    have hkm : k ∈ l.map ipPort := (mem_keysInOrder l k).mp hk
    exact ipPort_mergeGroup (groupOf_ne_nil hkm) (fun p hp => (mem_groupOf.mp hp).2)
  calc (mergedUnsorted l).map ipPort
      = (keysInOrder l).map (fun k => ipPort (mergeGroup (groupOf l k))) := by
        simp [mergedUnsorted, List.map_map]
    _ = (keysInOrder l).map id := List.map_congr_left hcong
    _ = keysInOrder l := List.map_id _

lemma mem_mergedUnsorted {l : List Proxy} {r : Proxy} :
    r ∈ mergedUnsorted l ↔ ∃ k ∈ keysInOrder l, r = mergeGroup (groupOf l k) := by
  simp [mergedUnsorted, eq_comm]

lemma mem_merge_dedup {l : List Proxy} {r : Proxy}
    (hr : r ∈ _merge_and_deduplicate l) :
    ∃ k ∈ keysInOrder l, r = mergeGroup (groupOf l k) ∧ ipPort r = k := by
  rw [_merge_and_deduplicate, List.mem_mergeSort] at hr
  obtain ⟨k, hk, rfl⟩ := mem_mergedUnsorted.mp hr
  refine ⟨k, hk, rfl, ?_⟩
  exact ipPort_mergeGroup (groupOf_ne_nil ((mem_keysInOrder l k).mp hk))
    (fun p hp => (mem_groupOf.mp hp).2)

lemma compute_quality_score_update (p : Proxy) (q : ℚ) :
    compute_quality_score { p with quality_score := q }
      = compute_quality_score p := rfl

lemma quality_mergeGroup (base : Proxy) (rest : List Proxy) :
    (mergeGroup (base :: rest)).quality_score
      = compute_quality_score (mergeGroup (base :: rest)) := rfl

/-- C4: the merged output has pairwise-distinct `(address, port)` keys,
exactly the keys occurring in the input, and every output record carries a
quality score recomputed from its own merged fields. -/
theorem C4_dedup_invariant (l : List Proxy) :
    ((_merge_and_deduplicate l).map ipPort).Nodup
    ∧ (∀ k, k ∈ (_merge_and_deduplicate l).map ipPort ↔ k ∈ l.map ipPort)
    ∧ ∀ r, r ∈ _merge_and_deduplicate l → r.quality_score = compute_quality_score r := by
  have hperm : (_merge_and_deduplicate l).Perm (mergedUnsorted l) :=
    List.mergeSort_perm _ _
  have hmap : ((_merge_and_deduplicate l).map ipPort).Perm (keysInOrder l) := by
    simpa [map_ipPort_mergedUnsorted] using hperm.map ipPort
  refine ⟨?_, ?_, ?_⟩
  · exact hmap.nodup_iff.mpr (keysInOrder_nodup l)
  · intro k
    rw [hmap.mem_iff, mem_keysInOrder]
  · intro r hr
    obtain ⟨k, hk, rfl, -⟩ := mem_merge_dedup hr
    obtain ⟨base, rest, hg⟩ :=
      List.exists_cons_of_ne_nil (groupOf_ne_nil ((mem_keysInOrder l k).mp hk))
    rw [hg]
    exact quality_mergeGroup base rest

/-! ### Reconciliation lemmas: the three accumulators compute min, max,
and the highest anonymity tag -/

lemma speedStep_some (s b : ℚ) :
    (if s < b then some s else some b) = some (min s b) := by
  rcases le_or_lt b s with h | h
  · rw [if_neg (not_lt.mpr h), min_eq_right h]
  · rw [if_pos h, min_eq_left h.le]

lemma relStep_some (r b : ℚ) :
    (if r > b then some r else some b) = some (max r b) := by
  rcases le_or_lt r b with h | h
  · rw [if_neg (not_lt.mpr h), max_eq_right h]
  · rw [if_pos h, max_eq_left h.le]

lemma speedFold (l : List Proxy) (b : ℚ) :
    l.foldl speedStep (some b)
      = some ((l.filterMap (fun p => p.speed_ms)).foldl min b) := by
  induction l generalizing b with
  | nil => simp
  | cons p ps ih =>
    cases hs : p.speed_ms with
    | none => simp [List.foldl_cons, speedStep, hs, List.filterMap_cons, ih]
    | some s =>
      simp only [List.foldl_cons, speedStep, hs, speedStep_some,
        List.filterMap_cons, ih, min_comm s b]

lemma speedFold_none (l : List Proxy) :
    l.foldl speedStep none = (l.filterMap (fun p => p.speed_ms)).min? := by
  induction l with
  | nil => simp [List.min?]
  | cons p ps ih =>
    cases hs : p.speed_ms with
    | none => simp [List.foldl_cons, speedStep, hs, List.filterMap_cons, ih]
    | some s =>
      simp [List.foldl_cons, speedStep, hs, List.filterMap_cons, speedFold,
        List.min?]

lemma relFold (l : List Proxy) (b : ℚ) :
    l.foldl relStep (some b)
      = some ((l.filterMap (fun p => p.reliability)).foldl max b) := by
  induction l generalizing b with
  | nil => simp
  | cons p ps ih =>
    cases hs : p.reliability with
    | none => simp [List.foldl_cons, relStep, hs, List.filterMap_cons, ih]
    | some r =>
      simp only [List.foldl_cons, relStep, hs, relStep_some,
        List.filterMap_cons, ih, max_comm r b]

lemma relFold_none (l : List Proxy) :
    l.foldl relStep none = (l.filterMap (fun p => p.reliability)).max? := by
  induction l with
  | nil => simp [List.max?]
  | cons p ps ih =>
    cases hs : p.reliability with
    | none => simp [List.foldl_cons, relStep, hs, List.filterMap_cons, ih]
    | some r =>
      simp [List.foldl_cons, relStep, hs, List.filterMap_cons, relFold,
        List.max?]

/-- The anonymity vocabulary of a raw record: one of the three canonical
tags, or absent. -/
def canonicalAnon (a : Option String) : Prop :=
  a = none ∨ a = some "transparent" ∨ a = some "anonymous" ∨ a = some "elite"

/-- The inverse of `_anon_rank` on the canonical vocabulary: the tag of a
given privacy rank. -/
def rankToTag : Nat → Option String
  | 3 => some "elite"
  | 2 => some "anonymous"
  | 1 => some "transparent"
  | _ => none

lemma rankToTag_rank (a : Option String) (h : canonicalAnon a) :
    rankToTag (_anon_rank a) = a := by
  rcases h with h | h | h | h <;> simp [h, _anon_rank, rankToTag]

lemma _anon_rank_le_three (a : Option String) : _anon_rank a ≤ 3 := by
  simp only [_anon_rank]
  split
  · omega
  split
  · omega
  split <;> omega

lemma rank_rankToTag (n : Nat) (h : n ≤ 3) : _anon_rank (rankToTag n) = n := by
  interval_cases n <;> rfl

lemma anonStep_eq (ba : Option String) (p : Proxy)
    (hba : canonicalAnon ba) (hp : canonicalAnon p.anonymity) :
    anonStep ba p = rankToTag (max (_anon_rank ba) (_anon_rank p.anonymity))
    ∧ canonicalAnon (anonStep ba p) := by
  rcases hp with h | h | h | h <;> rcases hba with h2 | h2 | h2 | h2 <;>
    simp [anonStep, _anon_rank, rankToTag, canonicalAnon, h, h2]

lemma anonFold (l : List Proxy) (init : Option String)
    (hinit : canonicalAnon init) (hl : ∀ p ∈ l, canonicalAnon p.anonymity) :
    l.foldl anonStep init
      = rankToTag ((l.map (fun p => _anon_rank p.anonymity)).foldl
          max (_anon_rank init)) := by
  induction l generalizing init with
  | nil =>
    simp only [List.foldl_nil, List.map_nil]
    exact (rankToTag_rank init hinit).symm
  | cons p ps ih =>
    have hp := hl p (by simp)
    obtain ⟨hstep, hcanon⟩ := anonStep_eq init p hinit hp
    rw [hstep] at hcanon
    simp only [List.foldl_cons, List.map_cons, hstep]
    rw [ih _ hcanon (fun q hq => hl q (by simp [hq]))]
    congr 1
    rw [rank_rankToTag _ (max_le (_anon_rank_le_three init)
      (_anon_rank_le_three p.anonymity))]

/-- C2: per group, the merged canonical record has `source_count` equal to
the group size, the minimum present speed, the maximum present
reliability, the highest anonymity tag under
elite > anonymous > transparent > absent, and protocol, country, address,
port and URL taken from the first record of the group. -/
theorem C2_merge_reconciliation (base : Proxy) (rest : List Proxy)
    (hshare : ∀ p ∈ base :: rest, p.ip = base.ip ∧ p.port = base.port)
    (hanon : ∀ p ∈ base :: rest, canonicalAnon p.anonymity) :
    (mergeGroup (base :: rest)).source_count = (base :: rest).length
    ∧ (mergeGroup (base :: rest)).speed_ms
        = ((base :: rest).filterMap (fun p => p.speed_ms)).min?
    ∧ (mergeGroup (base :: rest)).reliability
        = ((base :: rest).filterMap (fun p => p.reliability)).max?
    ∧ (mergeGroup (base :: rest)).anonymity
        = rankToTag (((base :: rest).map
            (fun p => _anon_rank p.anonymity)).foldl max 0)
    ∧ (mergeGroup (base :: rest)).protocol = base.protocol
    ∧ (mergeGroup (base :: rest)).country = base.country
    ∧ (mergeGroup (base :: rest)).ip = base.ip
    ∧ (mergeGroup (base :: rest)).port = base.port
    ∧ (mergeGroup (base :: rest)).proxy_url = base.proxy_url := by
  refine ⟨rfl, ?_, ?_, ?_, rfl, rfl, rfl, rfl, rfl⟩
  · show (base :: rest).foldl speedStep none = _
    exact speedFold_none _
  · show (base :: rest).foldl relStep none = _
    exact relFold_none _
  · show (base :: rest).foldl anonStep base.anonymity = _
    rw [anonFold _ _ (hanon base (by simp)) hanon]
    congr 1
    simp [List.foldl_cons, List.map_cons, max_self, Nat.zero_max]

/-- Two raw records for one proxy, realizing the reconciliation example of
the specification (speeds 120 and 80, reliabilities 0.6 and 0.9,
anonymity transparent and elite). -/
def wA : Proxy :=
  { ip := "192.0.2.1", port := 80, protocol := "http",
    proxy_url := "http://192.0.2.1:80", speed_ms := some 120,
    reliability := some (6/10), anonymity := some "transparent" }

def wB : Proxy :=
  { ip := "192.0.2.1", port := 80, protocol := "socks5",
    proxy_url := "socks5://192.0.2.1:80", speed_ms := some 80,
    reliability := some (9/10), anonymity := some "elite" }

theorem C2_merge_reconciliation_witness :
    (mergeGroup [wA, wB]).source_count = ([wA, wB] : List Proxy).length
    ∧ (mergeGroup [wA, wB]).speed_ms
        = (([wA, wB] : List Proxy).filterMap (fun p => p.speed_ms)).min?
    ∧ (mergeGroup [wA, wB]).reliability
        = (([wA, wB] : List Proxy).filterMap (fun p => p.reliability)).max?
    ∧ (mergeGroup [wA, wB]).anonymity
        = rankToTag ((([wA, wB] : List Proxy).map
            (fun p => _anon_rank p.anonymity)).foldl max 0)
    ∧ (mergeGroup [wA, wB]).protocol = wA.protocol
    ∧ (mergeGroup [wA, wB]).country = wA.country
    ∧ (mergeGroup [wA, wB]).ip = wA.ip
    ∧ (mergeGroup [wA, wB]).port = wA.port
    ∧ (mergeGroup [wA, wB]).proxy_url = wA.proxy_url :=
  C2_merge_reconciliation wA [wB] (by decide) (by
    intro p hp
    rcases List.mem_cons.mp hp with rfl | hp2
    · simp [canonicalAnon, wA]
    · rcases List.mem_singleton.mp hp2 with rfl
      simp [canonicalAnon, wB])

/-! ### Sorting theorems -/

lemma scoreLE_trans : ∀ (a b c : Proxy),
    scoreLE a b → scoreLE b c → scoreLE a c := by
  intro a b c hab hbc
  simp only [scoreLE, decide_eq_true_eq] at hab hbc ⊢
  exact le_trans hbc hab

lemma scoreLE_total : ∀ (a b : Proxy), scoreLE a b || scoreLE b a := by
  intro a b
  simp only [scoreLE, Bool.or_eq_true, decide_eq_true_eq]
  exact le_total _ _

/-- C8: the merged output is sorted by quality score in non-increasing
order; the pre-sort merged list is in first-occurrence key order; and the
sort is stable: any equal-score selection of the pre-sort list survives,
in order, into the output. -/
theorem C8_sorted_stable (l : List Proxy) :
    (_merge_and_deduplicate l).Pairwise
        (fun a b => b.quality_score ≤ a.quality_score)
    ∧ (mergedUnsorted l).map ipPort = keysInOrder l
    ∧ ∀ c : List Proxy,
        (∀ a ∈ c, ∀ b ∈ c, a.quality_score = b.quality_score) →
        c.Sublist (mergedUnsorted l) →
        c.Sublist (_merge_and_deduplicate l) := by
  refine ⟨?_, map_ipPort_mergedUnsorted l, ?_⟩
  · have h := List.sorted_mergeSort scoreLE_trans scoreLE_total (mergedUnsorted l)
    exact h.imp (by
      intro a b hab
      simpa [scoreLE, decide_eq_true_eq] using hab)
  · intro c hc hsub
    refine List.sublist_mergeSort scoreLE_trans scoreLE_total ?_ hsub
    refine List.pairwise_of_forall_mem_list ?_
    intro a ha b hb
    simp only [scoreLE, decide_eq_true_eq]
    exact le_of_eq (hc a ha b hb).symm

lemma mergedUnsorted_singleton (p : Proxy) :
    mergedUnsorted [p] = [mergeGroup [p]] := by
  simp [mergedUnsorted, keysInOrder, groupOf, List.filter]

lemma merge_dedup_singleton (p : Proxy) :
    _merge_and_deduplicate [p] = [mergeGroup [p]] := by
  rw [_merge_and_deduplicate, mergedUnsorted_singleton, List.mergeSort_singleton]

theorem C8_sorted_stable_witness :
    (mergedUnsorted [wA]).Sublist (_merge_and_deduplicate [wA]) :=
  (C8_sorted_stable [wA]).2.2 (mergedUnsorted [wA])
    (by
      rw [mergedUnsorted_singleton]
      intro a ha b hb
      rcases List.mem_singleton.mp ha with rfl
      rcases List.mem_singleton.mp hb with rfl
      rfl)
    (List.Sublist.refl _)

/-! ### Merge idempotence -/

lemma groupOf_append (l1 l2 : List Proxy) (k : String × Nat) :
    groupOf (l1 ++ l2) k = groupOf l1 k ++ groupOf l2 k := by
  simp [groupOf, List.filter_append]

lemma groupOf_eq_nil {l : List Proxy} {k : String × Nat}
    (h : k ∉ l.map ipPort) : groupOf l k = [] := by
  rw [groupOf, List.filter_eq_nil]
  intro p hp
  simp only [decide_eq_true_eq]
  intro heq
  exact h (List.mem_map.mpr ⟨p, hp, heq⟩)

lemma groupOf_self_of_nodup {M : List Proxy} (hM : (M.map ipPort).Nodup)
    {m : Proxy} (hm : m ∈ M) : groupOf M (ipPort m) = [m] := by
  induction M with
  | nil => simp at hm
  | cons p ps ih =>
    simp only [List.map_cons, List.nodup_cons] at hM
    rcases List.mem_cons.mp hm with rfl | hm2
    · rw [groupOf, List.filter_cons_of_pos (by simp)]
      have hnil : groupOf ps (ipPort m) = [] := groupOf_eq_nil hM.1
      rw [groupOf] at hnil
      rw [hnil]
    · have hne : ¬ ipPort p = ipPort m := by
        intro he
        exact hM.1 (he ▸ List.mem_map.mpr ⟨m, hm2, rfl⟩)
      rw [groupOf, List.filter_cons_of_neg (by simp [hne])]
      exact ih hM.2 hm2

lemma mergeGroup_single (m : Proxy) :
    (mergeGroup [m]).source_count = 1
    ∧ (mergeGroup [m]).speed_ms = m.speed_ms
    ∧ (mergeGroup [m]).reliability = m.reliability
    ∧ (mergeGroup [m]).anonymity = m.anonymity
    ∧ (mergeGroup [m]).protocol = m.protocol
    ∧ (mergeGroup [m]).country = m.country
    ∧ (mergeGroup [m]).proxy_url = m.proxy_url := by
  refine ⟨rfl, ?_, ?_, ?_, rfl, rfl, rfl⟩
  · show speedStep none m = m.speed_ms
    cases h : m.speed_ms <;> simp [speedStep, h]
  · show relStep none m = m.reliability
    cases h : m.reliability <;> simp [relStep, h]
  · show anonStep m.anonymity m = m.anonymity
    cases h : m.anonymity with
    | none => simp [anonStep, h]
    | some a => simp [anonStep, h]

lemma mergeGroup_pair_same (m : Proxy) :
    (mergeGroup [m, m]).source_count = 2
    ∧ (mergeGroup [m, m]).speed_ms = m.speed_ms
    ∧ (mergeGroup [m, m]).reliability = m.reliability
    ∧ (mergeGroup [m, m]).anonymity = m.anonymity
    ∧ (mergeGroup [m, m]).protocol = m.protocol
    ∧ (mergeGroup [m, m]).country = m.country
    ∧ (mergeGroup [m, m]).proxy_url = m.proxy_url := by
  refine ⟨rfl, ?_, ?_, ?_, rfl, rfl, rfl⟩
  · show speedStep (speedStep none m) m = m.speed_ms
    cases h : m.speed_ms <;> simp [speedStep, h]
  · show relStep (relStep none m) m = m.reliability
    cases h : m.reliability <;> simp [relStep, h]
  · show anonStep (anonStep m.anonymity m) m = m.anonymity
    cases h : m.anonymity with
    | none => simp [anonStep, h]
    | some a => simp [anonStep, h]

/-- C9: merging a duplicate-key-free list concatenated with itself doubles
each record's `source_count` and leaves every other canonical field equal
to the single-merge result. -/
theorem C9_merge_idempotent (M : List Proxy) (hM : (M.map ipPort).Nodup)
    (m : Proxy) (hm : m ∈ M) (r1 r2 : Proxy)
    (hr1 : r1 ∈ _merge_and_deduplicate M)
    (hr2 : r2 ∈ _merge_and_deduplicate (M ++ M))
    (hk1 : ipPort r1 = ipPort m) (hk2 : ipPort r2 = ipPort m) :
    r2.source_count = 2 * r1.source_count
    ∧ r2.speed_ms = r1.speed_ms
    ∧ r2.reliability = r1.reliability
    ∧ r2.anonymity = r1.anonymity
    ∧ r2.protocol = r1.protocol
    ∧ r2.country = r1.country
    ∧ r2.proxy_url = r1.proxy_url := by
  obtain ⟨k1, hk1mem, he1, hip1⟩ := mem_merge_dedup hr1
  obtain ⟨k2, hk2mem, he2, hip2⟩ := mem_merge_dedup hr2
  have ek1 : k1 = ipPort m := by rw [← hip1, hk1]
  have ek2 : k2 = ipPort m := by rw [← hip2, hk2]
  have hg1 : groupOf M (ipPort m) = [m] := groupOf_self_of_nodup hM hm
  have hg2 : groupOf (M ++ M) (ipPort m) = [m, m] := by
    rw [groupOf_append, hg1]
    rfl
  rw [ek1, hg1] at he1
  rw [ek2, hg2] at he2
  subst he1
  subst he2
  obtain ⟨s1, s2, s3, s4, s5, s6, s7⟩ := mergeGroup_single m
  obtain ⟨d1, d2, d3, d4, d5, d6, d7⟩ := mergeGroup_pair_same m
  refine ⟨?_, ?_, ?_, ?_, ?_, ?_, ?_⟩
  · rw [s1, d1]
  · rw [s2, d2]
  · rw [s3, d3]
  · rw [s4, d4]
  · rw [s5, d5]
  · rw [s6, d6]
  · rw [s7, d7]

lemma merge_dedup_pair_same (p : Proxy) :
    _merge_and_deduplicate [p, p] = [mergeGroup [p, p]] := by
  have h1 : keysInOrder [p, p] = [ipPort p] := by
    simp [keysInOrder, List.filter]
  have h2 : groupOf [p, p] (ipPort p) = [p, p] := by
    simp [groupOf, List.filter]
  rw [_merge_and_deduplicate, mergedUnsorted, h1]
  simp [h2]

theorem C9_merge_idempotent_witness :
    (mergeGroup [wA, wA]).source_count = 2 * (mergeGroup [wA]).source_count
    ∧ (mergeGroup [wA, wA]).speed_ms = (mergeGroup [wA]).speed_ms
    ∧ (mergeGroup [wA, wA]).reliability = (mergeGroup [wA]).reliability
    ∧ (mergeGroup [wA, wA]).anonymity = (mergeGroup [wA]).anonymity
    ∧ (mergeGroup [wA, wA]).protocol = (mergeGroup [wA]).protocol
    ∧ (mergeGroup [wA, wA]).country = (mergeGroup [wA]).country
    ∧ (mergeGroup [wA, wA]).proxy_url = (mergeGroup [wA]).proxy_url :=
  C9_merge_idempotent [wA] (by simp) wA (by simp)
    (mergeGroup [wA]) (mergeGroup [wA, wA])
    (by rw [merge_dedup_singleton]; simp)
    (by
      rw [show ([wA] ++ [wA] : List Proxy) = [wA, wA] from rfl,
        merge_dedup_pair_same]
      simp)
    rfl rfl

/-! ### Fetch orchestration -/

/-- A raw record as an adapter emits it (default `source_count` 1 and
`quality_score` 0). -/
def rawProxy : Proxy :=
  { ip := "198.51.100.4", port := 3128, protocol := "http",
    proxy_url := "http://198.51.100.4:3128" }

lemma fetch_ok_err_err_fst :
    (fetch_all_sources (.ok [rawProxy]) (.err "ReadTimeout")
        (.err "ConnectError")).1
      = [mergeGroup [rawProxy]] := by
  show _merge_and_deduplicate [rawProxy] = _
  exact merge_dedup_singleton rawProxy

/-- C6 counterexample: with the first adapter succeeding with one raw
record and the other two failing, `fetch_all_sources` does not return the
concatenated raw record list: the record it returns carries a recomputed
quality score (`0.1`), not the raw record's score (`0`). -/
theorem C6_counterexample :
    (fetch_all_sources (.ok [rawProxy]) (.err "ReadTimeout")
        (.err "ConnectError")).1
      ≠ [rawProxy] := by
  rw [fetch_ok_err_err_fst]
  intro h
  have h1 : mergeGroup [rawProxy] = rawProxy := by injection h
  have h2 : (mergeGroup [rawProxy]).quality_score = rawProxy.quality_score := by
    rw [h1]
  have h3 : (mergeGroup [rawProxy]).quality_score = 1/10 := by
    simp only [mergeGroup, rawProxy, List.foldl_cons, List.foldl_nil,
      speedStep, relStep, anonStep, List.length_cons, List.length_nil]
    norm_num [compute_quality_score, anonScores, round3]
    rw [if_neg (by decide : ¬("" = "elite")),
      if_neg (by decide : ¬("" = "anonymous")),
      if_neg (by decide : ¬("" = "transparent"))]
    norm_num
  have h4 : rawProxy.quality_score = 0 := rfl
  rw [h3, h4] at h2
  norm_num at h2

/-- C6 (amended): `fetch_all_sources` returns the merge/deduplication of
the concatenation of the record lists of exactly the adapters that
succeeded, together with a status map holding, for each of the three
source names in order, `ok` if that adapter succeeded (even with zero
records) and `error: <kind>` otherwise; one adapter's failure never
removes another adapter's records or status entry. -/
theorem C6_fetch_all_sources (o1 o2 o3 : FetchOutcome) :
    fetch_all_sources o1 o2 o3
      = (_merge_and_deduplicate (recordsOf o1 ++ recordsOf o2 ++ recordsOf o3),
         [("proxifly", statusOf o1), ("vakhov", statusOf o2),
          ("clearproxy", statusOf o3)]) := by
  cases o1 <;> cases o2 <;> cases o3 <;>
    simp [fetch_all_sources, outcomeStep, recordsOf, statusOf]
